import Mathlib

/-!
Verification development for the immortyx longevity-research collection system.

We give a shallow embedding of the parts of the code base that the verified
properties are about:

* `utils/text_processing.py` : `TextProcessor.clean_text` (ASCII model of the
  regular expressions involved);
* `databases/knowledge_synthesis.py` : the `documents` / `user_interactions`
  tables, `store_documents`, `_search_documents` (including SQLite `LIKE`
  semantics) and `search`;
* `agent_coordinator.py` : the default configuration, query hashing
  (a full MD5 implementation over `Nat`), query generation
  (`get_next_queries` with its two passes), priority scoring and
  `report_query_results` over a list-modelled SQLite database.

Randomness (`random.choice`, `random.sample`) is modelled by an oracle
structure passed explicitly; wall-clock values (`datetime.now`) are passed in
as string parameters.  Floating point priority weights are modelled by `ℚ`.
-/

namespace Immortyx

/-! ## Character and string utilities (ASCII model of Python / SQLite) -/

/-- ASCII lower-casing of one character, as Python `str.lower` and SQLite
`LOWER` behave on ASCII input (this is exactly `Char.toLower`). -/
def lowerChar (c : Char) : Char := Char.toLower c

/-- ASCII lower-casing of a string. -/
def lowerStr (s : String) : String := String.mk (s.toList.map lowerChar)

/-- Whitespace characters, as matched by the regex class `\s` and by
Python `str.strip` / `str.split` on ASCII input: space, tab, newline,
carriage return, vertical tab, form feed (stated over character codes). -/
def isWsChar (c : Char) : Bool :=
  c.toNat = 32 || c.toNat = 9 || c.toNat = 10 || c.toNat = 13 ||
    c.toNat = 11 || c.toNat = 12

/-- Word characters, as matched by the regex class `\w` on ASCII input:
letters, digits and the underscore (stated over character codes). -/
def isWordChar (c : Char) : Bool :=
  (97 ≤ c.toNat && c.toNat ≤ 122) || (65 ≤ c.toNat && c.toNat ≤ 90) ||
    (48 ≤ c.toNat && c.toNat ≤ 57) || c = '_'

/-- Helper for `collapseWs`: the flag records whether we are inside a
whitespace run whose single replacement space was already emitted. -/
def collapseWsAux : List Char → Bool → List Char
  | [], _ => []
  | c :: cs, inRun =>
    if isWsChar c then
      if inRun then collapseWsAux cs true else ' ' :: collapseWsAux cs true
    else c :: collapseWsAux cs false

/-- `re.sub(r'\s+', ' ', text)`: collapse every maximal whitespace run to a
single space. -/
def collapseWs (l : List Char) : List Char := collapseWsAux l false

/-- Characters kept by `re.sub(r'[^\w\s\.,!?;:()\-]', '', text)`. -/
def keepChar (c : Char) : Bool :=
  isWordChar c || isWsChar c || [',', '.', '!', '?', ';', ':', '(', ')', '-'].contains c

/-- Python `str.strip` on a character list. -/
def stripChars (l : List Char) : List Char :=
  ((l.dropWhile isWsChar).reverse.dropWhile isWsChar).reverse

/-- Python `str.strip` on a string. -/
def stripStr (s : String) : String := String.mk (stripChars s.toList)

/-- `TextProcessor.clean_text` (utils/text_processing.py): empty input gives
`""`; otherwise collapse whitespace, drop characters outside
`[\w\s.,!?;:()\-]`, and strip. -/
def clean_text (s : String) : String :=
  if s.isEmpty then ""
  else String.mk (stripChars ((collapseWs s.toList).filter keepChar))

/-- Helper for `splitWs`: `acc` holds the current word, reversed. -/
def splitWsAux : List Char → List Char → List String
  | [], acc => if acc.isEmpty then [] else [String.mk acc.reverse]
  | c :: cs, acc =>
    if isWsChar c then
      if acc.isEmpty then splitWsAux cs [] else String.mk acc.reverse :: splitWsAux cs []
    else splitWsAux cs (c :: acc)

/-- Python `str.split()` (no separator): the maximal non-whitespace runs, in
order, with no empty words. -/
def splitWs (s : String) : List String := splitWsAux s.toList []

/-- Decidable list-prefix test. -/
def isPrefixL : List Char → List Char → Bool
  | [], _ => true
  | a :: as, t =>
    match t with
    | [] => false
    | b :: bs => a = b && isPrefixL as bs

/-- Decidable contiguous-sublist (substring) test; `listSub n h` is Python's
`n in h` on strings. -/
def listSub (n : List Char) : List Char → Bool
  | [] => n.isEmpty
  | c :: hs => isPrefixL n (c :: hs) || listSub n hs

/-- Python `needle in hay` on strings. -/
def strContains (hay needle : String) : Bool := listSub needle.toList hay.toList

/-! ## Default configuration (`AgentCoordinator._load_config`) -/

/-- The static default research-theme list of `_load_config`. -/
def researchThemes : List String :=
  ["longevity_genetics", "aging_interventions", "life_extension_drugs",
   "cellular_senescence", "telomeres_aging", "caloric_restriction",
   "anti_aging_compounds", "regenerative_medicine", "biomarkers_aging",
   "aging_mechanisms"]

/-- The static `query_templates` table of `_load_config`. -/
def queryTemplates : List (String × List String) :=
  [("longevity_genetics",
    ["longevity genes human", "genetic factors life extension",
     "FOXO3 longevity genetics", "APOE longevity variants",
     "centenarian genetics study"]),
   ("aging_interventions",
    ["life extension interventions", "anti-aging therapies clinical",
     "longevity interventions human", "aging reversal therapies",
     "lifespan extension methods"]),
   ("life_extension_drugs",
    ["metformin anti-aging effects", "rapamycin longevity studies",
     "resveratrol life extension", "NAD+ precursors aging",
     "senolytics aging drugs"]),
   ("cellular_senescence",
    ["cellular senescence aging", "senescent cells clearing",
     "p16 senescence biomarker", "SASP aging inflammation",
     "senolytic drugs research"]),
   ("telomeres_aging",
    ["telomeres aging longevity", "telomerase activation therapy",
     "telomere length aging", "TA-65 telomerase activator",
     "telomere shortening interventions"]),
   ("caloric_restriction",
    ["caloric restriction longevity", "intermittent fasting aging",
     "CR mimetics anti-aging", "dietary restriction lifespan",
     "fasting longevity effects"]),
   ("anti_aging_compounds",
    ["spermidine anti-aging effects", "quercetin aging intervention",
     "curcumin longevity studies", "NMN aging supplement",
     "astragalus anti-aging"]),
   ("regenerative_medicine",
    ["stem cells aging therapy", "tissue regeneration aging",
     "pluripotent stem cells longevity", "regenerative medicine aging",
     "cell therapy anti-aging"]),
   ("biomarkers_aging",
    ["biological age biomarkers", "aging clock epigenetic",
     "inflammaging biomarkers", "longevity biomarkers human",
     "aging assessment tests"]),
   ("aging_mechanisms",
    ["hallmarks of aging", "mitochondrial aging theory",
     "oxidative stress aging", "protein aggregation aging",
     "DNA damage aging mechanisms"])]

/-- `search_settings.max_results_per_query` of the default configuration. -/
def maxResultsPerQuery : Nat := 50

/-- `search_settings.min_articles_per_theme` of the default configuration. -/
def minArticlesPerTheme : Nat := 20

/-- `priorities.clinical_trials` of the default configuration (0.3). -/
def priorityClinicalTrials : ℚ := 3 / 10

/-- `priorities.recent_research` of the default configuration (0.4). -/
def priorityRecentResearch : ℚ := 2 / 5

/-- `priorities.review_articles` of the default configuration (0.2). -/
def priorityReviewArticles : ℚ := 1 / 5

/-! ## Priority scoring (`AgentCoordinator._calculate_query_priority`) -/

/-- `_calculate_query_priority`: base 0.5, plus the configured weight for each
of the three keyword groups found in the lower-cased query, capped at 1.0.
The `theme` argument is taken but not used, as in the code. -/
def calculate_query_priority (query : String) (theme : String) : ℚ :=
  let ql := lowerStr query
  let p1 : ℚ := 1 / 2
  let p2 := if ["clinical", "trial", "human"].any (fun t => strContains ql t)
    then p1 + priorityClinicalTrials else p1
  let p3 := if ["recent", "2020", "2021", "2022", "2023", "2024"].any (fun t => strContains ql t)
    then p2 + priorityRecentResearch else p2
  let p4 := if ["review", "meta-analysis"].any (fun t => strContains ql t)
    then p3 + priorityReviewArticles else p3
  min p4 1

/-- Claim C6: for every query `q` and theme `t`, `_calculate_query_priority`
returns the minimum of 1.0 and 0.5 plus 0.3 when `q` contains `clinical`,
`trial` or `human`, plus 0.4 when `q` contains `recent` or a year 2020-2024,
plus 0.2 when `q` contains `review` or `meta-analysis` (all case-insensitive
via lower-casing), and the result always lies in the interval [0.5, 1.0]. -/
theorem priority_scoring_arithmetic (q t : String) :
    calculate_query_priority q t =
      min 1 ((1 : ℚ) / 2
        + (if ["clinical", "trial", "human"].any (fun w => strContains (lowerStr q) w)
            then 3 / 10 else 0)
        + (if ["recent", "2020", "2021", "2022", "2023", "2024"].any
              (fun w => strContains (lowerStr q) w)
            then 2 / 5 else 0)
        + (if ["review", "meta-analysis"].any (fun w => strContains (lowerStr q) w)
            then 1 / 5 else 0))
    ∧ 1 / 2 ≤ calculate_query_priority q t ∧ calculate_query_priority q t ≤ 1 := by
  unfold calculate_query_priority
  simp only [priorityClinicalTrials, priorityRecentResearch, priorityReviewArticles]
  by_cases h1 : ["clinical", "trial", "human"].any (fun w => strContains (lowerStr q) w) <;>
    by_cases h2 : ["recent", "2020", "2021", "2022", "2023", "2024"].any
        (fun w => strContains (lowerStr q) w) <;>
      by_cases h3 : ["review", "meta-analysis"].any (fun w => strContains (lowerStr q) w) <;>
        simp [h1, h2, h3] <;> norm_num [min_comm, le_min_iff, min_le_iff]

/-! ## Knowledge base data model (`databases/knowledge_synthesis.py`) -/

/-- A row of the `documents` table. -/
structure DocRow where
  id : String
  title : String
  content : String
  source : String
  url : Option String
  authors : String
  publication_date : Option String
  document_type : Option String
  research_theme : Option String
  search_query : Option String
  metadata : String
  created_at : String
deriving DecidableEq

/-- A row of the `entities` table. -/
structure EntityRow where
  document_id : String
  category : String
  entity : String
  confidence : ℚ
  context : Option String
deriving DecidableEq

/-- A row of the `knowledge_graph` table (created by the schema, never
written by the operations modelled here). -/
structure KGRow where
  subject : String
  pred : String
  obj : String
  confidence : ℚ
  source_documents : String
  created_at : String
deriving DecidableEq

/-- A row of the `user_interactions` table. -/
structure InteractionRow where
  user_profile : Option String
  query : String
  response : String
  relevant_documents : String
  created_at : String
deriving DecidableEq

/-- The knowledge-base database state: the four tables of
`KnowledgeSynthesis._init_database`. -/
structure KBState where
  documents : List DocRow
  entities : List EntityRow
  knowledge_graph : List KGRow
  user_interactions : List InteractionRow
deriving DecidableEq

/-- A freshly initialised knowledge base. -/
def emptyKB : KBState := ⟨[], [], [], []⟩

/-- The metadata dictionary carried by a parsed document, with the keys the
knowledge base reads (`research_theme`, `search_query`, `entities`). -/
structure DocMetadata where
  research_theme : Option String
  search_query : Option String
  entities : List (String × List String)
deriving DecidableEq

/-- A parsed document as handed to `store_documents`; `publication_date`
holds the `isoformat` rendering of the date when present. -/
structure Document where
  document_id : String
  title : String
  content : String
  source : String
  url : Option String
  authors : List String
  publication_date : Option String
  document_type : Option String
  metadata : DocMetadata
deriving DecidableEq

/-- Model of `json.dumps` on a list of strings (escaping is not modelled;
no verified property inspects this value). -/
def jsonDumpList (l : List String) : String :=
  "[" ++ String.intercalate ", " (l.map (fun s => "\"" ++ s ++ "\"")) ++ "]"

/-- Model of `json.dumps` on the metadata dictionary (no verified property
inspects this value). -/
def metaDump (m : DocMetadata) : String :=
  jsonDumpList (m.research_theme.toList ++ m.search_query.toList ++
    m.entities.map Prod.fst)

/-- The `documents` row built by `store_documents` for one document. -/
def docRowOf (d : Document) (theme : Option String) (now : String) : DocRow :=
  { id := d.document_id
    title := d.title
    content := d.content
    source := d.source
    url := d.url
    authors := jsonDumpList d.authors
    publication_date := d.publication_date
    document_type := d.document_type
    research_theme := match theme with
      | some t => some t
      | none => d.metadata.research_theme
    search_query := d.metadata.search_query
    metadata := metaDump d.metadata
    created_at := now }

/-- SQLite `INSERT OR REPLACE` into `documents` (`id` is the primary key):
any conflicting row is deleted and the new row appended. -/
def insertOrReplaceDoc (docs : List DocRow) (row : DocRow) : List DocRow :=
  docs.filter (fun r => r.id ≠ row.id) ++ [row]

/-- `KnowledgeSynthesis._store_entities`: delete the document's entity rows,
then insert the new ones with the default confidence 0.8. -/
def store_entities (rows : List EntityRow) (document_id : String)
    (entities : List (String × List String)) : List EntityRow :=
  rows.filter (fun r => r.document_id ≠ document_id) ++
    (entities.flatMap (fun p =>
      p.2.map (fun e => EntityRow.mk document_id p.1 e (4 / 5) none)))

/-- `KnowledgeSynthesis.store_documents`: insert-or-replace each document row
and, when its metadata carries a non-empty entities dictionary, rewrite its
entity rows. -/
def store_documents (st : KBState) (docs : List Document) (theme : Option String)
    (now : String) : KBState :=
  docs.foldl
    (fun st d =>
      { st with
        documents := insertOrReplaceDoc st.documents (docRowOf d theme now)
        entities := if d.metadata.entities.isEmpty then st.entities
          else store_entities st.entities d.document_id d.metadata.entities })
    st

/-! ## SQLite `LIKE` and keyword search -/

/-- SQLite `LIKE` pattern matching on character lists: `%` matches any
sequence, `_` any single character, anything else itself.  Case folding is
handled by the caller (`sqlLike`). -/
def likeM : List Char → List Char → Bool
  | [], s => s.isEmpty
  | p :: ps, s =>
    if p = '%' then s.tails.any (fun t => likeM ps t)
    else
      match s with
      | [] => false
      | c :: s' => (if p = '_' then true else p = c) && likeM ps s'

/-- SQLite `expr LIKE pattern`, which is case-insensitive on ASCII: both
sides are folded to lower case and matched. -/
def sqlLike (text pattern : String) : Bool :=
  likeM (lowerStr pattern).toList (lowerStr text).toList

/-- The `WHERE` clause of `_search_documents`: some query word matches
`LOWER(title)` or `LOWER(content)` under `LIKE '%word%'`. -/
def docMatches (query_words : List String) (d : DocRow) : Bool :=
  query_words.any (fun w =>
    sqlLike (lowerStr d.title) ("%" ++ w ++ "%") ||
    sqlLike (lowerStr d.content) ("%" ++ w ++ "%"))

/-- The `ORDER BY publication_date DESC` comparison: SQLite sorts `NULL`
before any text ascending, hence after any text descending. -/
def pubDateGe (d1 d2 : DocRow) : Prop :=
  match d1.publication_date, d2.publication_date with
  | _, none => True
  | none, some _ => False
  | some a, some b => b ≤ a

instance : DecidableRel pubDateGe := fun d1 d2 => by
  unfold pubDateGe
  cases d1.publication_date <;> cases d2.publication_date <;>
    simp <;> infer_instance

instance : IsTotal DocRow pubDateGe := by
  constructor
  intro a b
  unfold pubDateGe
  cases a.publication_date <;> cases b.publication_date <;> simp
  exact le_total _ _

instance : IsTrans DocRow pubDateGe := by
  constructor
  intro a b c
  unfold pubDateGe
  cases a.publication_date <;> cases b.publication_date <;>
    cases c.publication_date <;> simp
  exact fun h1 h2 => le_trans h2 h1

/-- `KnowledgeSynthesis._search_documents`: split the cleaned, lower-cased
query into words; with no words the generated SQL has an empty `WHERE`
disjunction and is malformed, so the exception handler returns the empty
list; otherwise filter by keyword `LIKE` match, order by publication date
descending and apply `LIMIT`. -/
def search_documents (st : KBState) (query : String) (limit : Nat) : List DocRow :=
  let query_words := splitWs (lowerStr (clean_text query))
  if query_words.isEmpty then []
  else (List.insertionSort pubDateGe (st.documents.filter (docMatches query_words))).take limit

/-- The fixed no-results message of `KnowledgeSynthesis.search` (built
without a literal apostrophe character). -/
def noResultsMsg : String :=
  "I couldn" ++ String.mk [Char.ofNat 39] ++
    "t find any relevant information about that topic in the knowledge base."

/-- `KnowledgeSynthesis._store_interaction`. -/
def store_interaction (st : KBState) (user_profile : Option String)
    (query response : String) (document_ids : List String) (now : String) : KBState :=
  { st with user_interactions := st.user_interactions ++
      [InteractionRow.mk user_profile query response (jsonDumpList document_ids) now] }

/-- `KnowledgeSynthesis.search`: fetch up to `limit * 2` matching documents;
with none, return the fixed message and leave the database untouched;
otherwise summarise (the LLM-backed `_generate_user_specific_summary` is
modelled by the `summarizer` parameter) and record the interaction. -/
def search (st : KBState) (query : String) (user_profile : Option String)
    (limit : Nat) (summarizer : List DocRow → String → Option String → String)
    (now : String) : String × KBState :=
  let documents := search_documents st query (limit * 2)
  if documents.isEmpty then (noResultsMsg, st)
  else
    let summary := summarizer documents query user_profile
    (summary, store_interaction st user_profile query summary
      (documents.map (fun d => d.id)) now)

/-! ## Character-level lemmas -/

/-- `Char.ofNat` of a valid codepoint decodes back to it. -/
theorem toNat_ofNat_valid {n : Nat} (h : n.isValidChar) : (Char.ofNat n).toNat = n := by
  rw [Char.ofNat, dif_pos h]
  rfl

/-- ASCII lower-casing is idempotent. -/
theorem lowerChar_lowerChar (c : Char) : lowerChar (lowerChar c) = lowerChar c := by
  unfold lowerChar Char.toLower
  by_cases h : c.toNat ≥ 65 ∧ c.toNat ≤ 90
  · rw [if_pos h]
    have hv : (c.toNat + 32).isValidChar := Or.inl (by omega)
    rw [toNat_ofNat_valid hv, if_neg (by omega)]
  · rw [if_neg h, if_neg h]

/-- `lowerStr` is idempotent. -/
theorem lowerStr_lowerStr (s : String) : lowerStr (lowerStr s) = lowerStr s := by
  have hf : lowerChar ∘ lowerChar = lowerChar := funext lowerChar_lowerChar
  unfold lowerStr
  simp [← List.comp_map, hf]

/-- The characters of `lowerStr s` are fixed by `lowerChar`. -/
theorem lowerChar_mem_lowerStr {c : Char} {s : String} (h : c ∈ (lowerStr s).toList) :
    lowerChar c = c := by
  unfold lowerStr at h
  simp only [String.toList] at h
  obtain ⟨c₀, _, rfl⟩ := List.mem_map.mp h
  exact lowerChar_lowerChar c₀

/-- Characters kept by the cleaning filter stay kept after lower-casing. -/
theorem keepChar_lowerChar {c : Char} (h : keepChar c = true) :
    keepChar (lowerChar c) = true := by
  unfold lowerChar Char.toLower
  by_cases hc : c.toNat ≥ 65 ∧ c.toNat ≤ 90
  · rw [if_pos hc]
    have hv : (c.toNat + 32).isValidChar := Or.inl (by omega)
    unfold keepChar isWordChar
    simp only [Bool.or_eq_true, Bool.and_eq_true, decide_eq_true_eq,
      toNat_ofNat_valid hv]
    left; left; left; left
    omega
  · rwa [if_neg hc]

/-- `lowerChar` never produces a character the cleaning filter removes,
starting from a kept character; in particular it never produces `%` or `_`
wildcards beyond those already present.  Specialised fact: a kept character
is not `%`. -/
theorem keepChar_ne_percent {c : Char} (h : keepChar c = true) : c ≠ '%' := by
  intro hc
  subst hc
  exact absurd h (by decide)

/-! ## `LIKE` versus substring containment -/

/-- A pattern without `%` and `_` followed by a final `%` matches exactly
the lists it literally prefixes. -/
theorem likeM_append_pct {w : List Char} (hp : '%' ∉ w) (hu : '_' ∉ w) :
    ∀ t : List Char, likeM (w ++ ['%']) t = isPrefixL w t := by
  induction w with
  | nil =>
    intro t
    have : likeM ['%'] t = t.tails.any (fun x => likeM [] x) := by simp [likeM]
    rw [List.nil_append, this]
    have hmem : ([] : List Char) ∈ t.tails := by simp
    have : t.tails.any (fun x => likeM [] x) = true :=
      List.any_eq_true.mpr ⟨[], hmem, by simp [likeM]⟩
    rw [this, isPrefixL]
  | cons p w ih =>
    intro t
    have hp' : '%' ∉ w := fun hm => hp (List.mem_cons_of_mem _ hm)
    have hu' : '_' ∉ w := fun hm => hu (List.mem_cons_of_mem _ hm)
    have hpp : p ≠ '%' := fun he => hp (he ▸ List.mem_cons_self _ _)
    have hpu : p ≠ '_' := fun he => hu (he ▸ List.mem_cons_self _ _)
    cases t with
    | nil => simp [likeM, isPrefixL, hpp]
    | cons c t => simp [likeM, isPrefixL, hpp, hpu, ih hp' hu' t]

/-- One-directional version allowing `_` in the pattern (an `_` matches the
identical character in particular): a literal prefix yields a match. -/
theorem likeM_append_pct_of_prefix {w : List Char} (hp : '%' ∉ w) :
    ∀ {t : List Char}, isPrefixL w t = true → likeM (w ++ ['%']) t = true := by
  induction w with
  | nil =>
    intro t _
    have : likeM ['%'] t = t.tails.any (fun x => likeM [] x) := by simp [likeM]
    rw [List.nil_append, this]
    exact List.any_eq_true.mpr ⟨[], by simp, by simp [likeM]⟩
  | cons p w ih =>
    intro t h
    have hp' : '%' ∉ w := fun hm => hp (List.mem_cons_of_mem _ hm)
    have hpp : p ≠ '%' := fun he => hp (he ▸ List.mem_cons_self _ _)
    cases t with
    | nil => simp [isPrefixL] at h
    | cons c t =>
      simp only [isPrefixL, Bool.and_eq_true, decide_eq_true_eq] at h
      obtain ⟨hpc, h'⟩ := h
      subst hpc
      by_cases hpu : p = '_' <;>
        simp [likeM, hpp, hpu, ih hp' h']

/-- Substring containment is prefix containment at some suffix. -/
theorem listSub_eq_tails_any (w : List Char) :
    ∀ s : List Char, listSub w s = s.tails.any (fun t => isPrefixL w t) := by
  intro s
  induction s with
  | nil => cases w <;> simp [listSub, isPrefixL, List.isEmpty]
  | cons c s ih => simp [listSub, ih]

/-- The full `LIKE '%w%'` pattern is substring containment when `w` has no
wildcards. -/
theorem likeM_pct_wrap_eq_sub {w : List Char} (hp : '%' ∉ w) (hu : '_' ∉ w)
    (s : List Char) : likeM ('%' :: (w ++ ['%'])) s = listSub w s := by
  have h1 : likeM ('%' :: (w ++ ['%'])) s =
      s.tails.any (fun t => likeM (w ++ ['%']) t) := by simp [likeM]
  rw [h1, listSub_eq_tails_any]
  exact congrArg s.tails.any (funext fun t => likeM_append_pct hp hu t)

/-- Substring containment implies a `LIKE '%w%'` match for `%`-free `w`
(`_` allowed). -/
theorem likeM_pct_wrap_of_sub {w : List Char} (hp : '%' ∉ w)
    {s : List Char} (h : listSub w s = true) :
    likeM ('%' :: (w ++ ['%'])) s = true := by
  have h1 : likeM ('%' :: (w ++ ['%'])) s =
      s.tails.any (fun t => likeM (w ++ ['%']) t) := by simp [likeM]
  rw [h1]
  rw [listSub_eq_tails_any] at h
  obtain ⟨t, hmem, hpre⟩ := List.any_eq_true.mp h
  exact List.any_eq_true.mpr ⟨t, hmem, likeM_append_pct_of_prefix hp hpre⟩

/-! ## Words of a cleaned query -/

/-- Every character of a word produced by `splitWsAux` comes from the
accumulator or from the input list. -/
theorem mem_splitWsAux_chars :
    ∀ {l acc : List Char} {w : String}, w ∈ splitWsAux l acc →
      ∀ c ∈ w.toList, c ∈ acc ∨ c ∈ l := by
  intro l
  induction l with
  | nil =>
    intro acc w hw c hc
    cases ha : acc.isEmpty <;> simp [splitWsAux, ha] at hw
    subst hw
    simp only [String.toList, String.mk, List.mem_reverse] at hc
    exact Or.inl hc
  | cons c₀ cs ih =>
    intro acc w hw c hc
    cases h : isWsChar c₀
    · simp only [splitWsAux, h, Bool.false_eq_true, if_false] at hw
      rcases ih hw c hc with h' | h'
      · rcases List.mem_cons.mp h' with h'' | h''
        · exact Or.inr (h'' ▸ List.mem_cons_self _ _)
        · exact Or.inl h''
      · exact Or.inr (List.mem_cons_of_mem _ h')
    · cases ha : acc.isEmpty
      · simp only [splitWsAux, h, if_true, ha, Bool.false_eq_true, if_false,
          List.mem_cons] at hw
        rcases hw with hw | hw
        · subst hw
          simp only [String.toList, String.mk, List.mem_reverse] at hc
          exact Or.inl hc
        · rcases ih hw c hc with h' | h'
          · cases h'
          · exact Or.inr (List.mem_cons_of_mem _ h')
      · simp only [splitWsAux, h, if_true, ha] at hw
        rcases ih hw c hc with h' | h'
        · cases h'
        · exact Or.inr (List.mem_cons_of_mem _ h')

/-- Words produced by `splitWsAux` from a whitespace-free accumulator are
non-empty and contain no whitespace. -/
theorem mem_splitWsAux_nonWs :
    ∀ {l acc : List Char} {w : String}, (∀ c ∈ acc, isWsChar c = false) →
      w ∈ splitWsAux l acc →
      w.toList ≠ [] ∧ ∀ c ∈ w.toList, isWsChar c = false := by
  intro l
  induction l with
  | nil =>
    intro acc w hacc hw
    cases ha : acc.isEmpty <;> simp [splitWsAux, ha] at hw
    subst hw
    refine ⟨by simpa [String.toList, String.mk] using ha, ?_⟩
    intro c hc
    simp only [String.toList, String.mk, List.mem_reverse] at hc
    exact hacc c hc
  | cons c₀ cs ih =>
    intro acc w hacc hw
    cases h : isWsChar c₀
    · simp only [splitWsAux, h, Bool.false_eq_true, if_false] at hw
      refine ih ?_ hw
      intro c hc
      rcases List.mem_cons.mp hc with h' | h'
      · subst h'
        exact h
      · exact hacc c h'
    · cases ha : acc.isEmpty
      · simp only [splitWsAux, h, if_true, ha, Bool.false_eq_true, if_false,
          List.mem_cons] at hw
        rcases hw with hw | hw
        · subst hw
          refine ⟨by simpa [String.toList, String.mk] using ha, ?_⟩
          intro c hc
          simp only [String.toList, String.mk, List.mem_reverse] at hc
          exact hacc c hc
        · exact ih (by simp) hw
      · simp only [splitWsAux, h, if_true, ha] at hw
        exact ih (by simp) hw

/-- `splitWsAux` on a whitespace-free list yields the single word formed by
the accumulator followed by the list (or nothing when both are empty). -/
theorem splitWsAux_all_nonWs :
    ∀ {l acc : List Char}, (∀ c ∈ l, isWsChar c = false) →
      splitWsAux l acc =
        if (acc.reverse ++ l).isEmpty then [] else [String.mk (acc.reverse ++ l)] := by
  intro l
  induction l with
  | nil => intro acc _; simp [splitWsAux, List.isEmpty_iff]
  | cons c₀ cs ih =>
    intro acc hl
    have hc₀ : isWsChar c₀ = false := hl c₀ (List.mem_cons_self _ _)
    have hcs : ∀ c ∈ cs, isWsChar c = false := fun c hc => hl c (List.mem_cons_of_mem _ hc)
    simp only [splitWsAux, hc₀, Bool.false_eq_true, if_false]
    rw [ih hcs]
    simp [List.isEmpty_iff]

/-- Rebuilding a string from its characters is the identity. -/
theorem mk_toList (s : String) : String.mk s.toList = s := rfl

/-- Characters of `clean_text` output pass the keep filter. -/
theorem clean_text_chars_keep {c : Char} {s : String}
    (h : c ∈ (clean_text s).toList) : keepChar c = true := by
  unfold clean_text at h
  cases hs : s.isEmpty <;> rw [hs] at h <;> simp only [Bool.false_eq_true, if_false, if_true] at h
  · simp only [String.toList, String.mk] at h
    unfold stripChars at h
    rw [List.mem_reverse] at h
    have h1 := List.dropWhile_subset _ h
    rw [List.mem_reverse] at h1
    have h2 := List.dropWhile_subset _ h1
    exact (List.mem_filter.mp h2).2
  · simp [String.toList] at h

/-- The package of facts about a word of the lower-cased cleaned query:
no `%`, fixed by lower-casing, non-empty, whitespace-free, and every
character passes the keep filter. -/
theorem word_props {w q : String} (hw : w ∈ splitWs (lowerStr (clean_text q))) :
    '%' ∉ w.toList ∧ List.map lowerChar w.toList = w.toList ∧
      w.toList ≠ [] ∧ ∀ c ∈ w.toList, isWsChar c = false ∧ keepChar c = true := by
  have hchars : ∀ c ∈ w.toList, c ∈ (lowerStr (clean_text q)).toList := by
    intro c hc
    rcases mem_splitWsAux_chars hw c hc with h | h
    · cases h
    · exact h
  have hkeep : ∀ c ∈ w.toList, keepChar c = true := by
    intro c hc
    have hmem := hchars c hc
    unfold lowerStr at hmem
    simp only [String.toList, String.mk] at hmem
    obtain ⟨c₀, hc₀, rfl⟩ := List.mem_map.mp hmem
    exact keepChar_lowerChar (clean_text_chars_keep hc₀)
  have hnws := mem_splitWsAux_nonWs (by simp) hw
  refine ⟨?_, ?_, hnws.1, fun c hc => ⟨hnws.2 c hc, hkeep c hc⟩⟩
  · intro hmem
    exact keepChar_ne_percent (hkeep _ hmem) rfl
  · have hfix : ∀ c ∈ w.toList, lowerChar c = c :=
      fun c hc => lowerChar_mem_lowerStr (hchars c hc)
    calc List.map lowerChar w.toList = List.map id w.toList :=
          List.map_congr_left hfix
      _ = w.toList := List.map_id _

/-- Collapsing whitespace is the identity on whitespace-free lists. -/
theorem collapseWsAux_nonWs :
    ∀ {l : List Char}, (∀ c ∈ l, isWsChar c = false) → ∀ b, collapseWsAux l b = l := by
  intro l
  induction l with
  | nil => intro _ b; rfl
  | cons c cs ih =>
    intro h b
    have hc : isWsChar c = false := h c (List.mem_cons_self _ _)
    have hcs : ∀ x ∈ cs, isWsChar x = false := fun x hx => h x (List.mem_cons_of_mem _ hx)
    simp [collapseWsAux, hc, ih hcs]

/-- `dropWhile` is the identity when no element satisfies the predicate. -/
theorem dropWhile_of_all_neg {p : α → Bool} :
    ∀ {l : List α}, (∀ a ∈ l, p a = false) → l.dropWhile p = l := by
  intro l h
  cases l with
  | nil => rfl
  | cons a as => simp [List.dropWhile_cons, h a (List.mem_cons_self _ _)]

/-- Stripping is the identity on whitespace-free lists. -/
theorem stripChars_of_nonWs {l : List Char} (h : ∀ c ∈ l, isWsChar c = false) :
    stripChars l = l := by
  unfold stripChars
  rw [dropWhile_of_all_neg h, dropWhile_of_all_neg (fun c hc => h c (List.mem_reverse.mp hc)),
    List.reverse_reverse]

/-- `clean_text` is the identity on a non-empty string whose characters all
pass the keep filter and contain no whitespace. -/
theorem clean_text_fix {w : String} (hne : w.toList ≠ [])
    (hkeep : ∀ c ∈ w.toList, keepChar c = true)
    (hnws : ∀ c ∈ w.toList, isWsChar c = false) : clean_text w = w := by
  have hemp : w.isEmpty = false := by
    by_contra h
    rw [Bool.not_eq_false, String.isEmpty_iff] at h
    exact hne (by rw [h]; rfl)
  unfold clean_text
  rw [hemp]
  simp only [Bool.false_eq_true, if_false]
  unfold collapseWs
  rw [collapseWsAux_nonWs hnws false, List.filter_eq_self.mpr hkeep,
    stripChars_of_nonWs hnws, mk_toList]

/-- Python `split()` of a non-empty whitespace-free string is the singleton
list of that string. -/
theorem splitWs_single {w : String} (hne : w.toList ≠ [])
    (hnws : ∀ c ∈ w.toList, isWsChar c = false) : splitWs w = [w] := by
  unfold splitWs
  rw [splitWsAux_all_nonWs hnws]
  simp only [List.reverse_nil, List.nil_append]
  rw [if_neg (by simpa [List.isEmpty_iff] using hne), mk_toList]

/-- `lowerStr` is the identity on strings whose characters are fixed by
`lowerChar`. -/
theorem lowerStr_fix {w : String} (h : List.map lowerChar w.toList = w.toList) :
    lowerStr w = w := by
  unfold lowerStr
  rw [show w.toList.map lowerChar = w.toList from h, mk_toList]

/-- Unfolding `sqlLike` on an already-lowered pattern built from a
lower-case word. -/
theorem sqlLike_pattern_eq {w t : String}
    (hmap : List.map lowerChar w.toList = w.toList) :
    sqlLike (lowerStr t) ("%" ++ w ++ "%") =
      likeM ('%' :: (w.toList ++ ['%'])) (lowerStr t).toList := by
  have hpct : lowerChar '%' = '%' := by decide
  unfold sqlLike
  rw [lowerStr_lowerStr]
  congr 1
  show (("%" ++ w ++ "%" : String).toList.map lowerChar) = '%' :: (w.toList ++ ['%'])
  have : ("%" ++ w ++ "%" : String).toList = '%' :: (w.toList ++ ['%']) := by
    show (("%" ++ w ++ "%" : String)).data = '%' :: (w.toList ++ ['%'])
    rw [String.data_append, String.data_append]
    rfl
  rw [this]
  have hmap' : List.map lowerChar w.data = w.data := hmap
  simp [hpct, hmap']

/-! ## Claims about the knowledge base -/

/-- Claim C3 (amended): every document returned by `_search_documents`
matches at least one word of the cleaned, lower-cased query under SQL
`LIKE '%word%'` against its title or content — and, when that word contains
no underscore (an SQL single-character wildcard, which `clean_text`
preserves), the word is a case-insensitive substring of the title or the
content; at most `limit` documents are returned and they are ordered by
`publication_date` descending. -/
theorem search_documents_sound_bounded (st : KBState) (q : String) (limit : Nat) :
    (search_documents st q limit).length ≤ limit
    ∧ (search_documents st q limit).Pairwise pubDateGe
    ∧ ∀ d ∈ search_documents st q limit,
        ∃ w ∈ splitWs (lowerStr (clean_text q)),
          (sqlLike (lowerStr d.title) ("%" ++ w ++ "%") = true ∨
           sqlLike (lowerStr d.content) ("%" ++ w ++ "%") = true)
          ∧ ((∀ c ∈ w.toList, c ≠ '_') →
              (listSub w.toList (lowerStr d.title).toList = true ∨
               listSub w.toList (lowerStr d.content).toList = true)) := by
  by_cases hq : (splitWs (lowerStr (clean_text q))).isEmpty
  · have hres : search_documents st q limit = [] := by
      simp only [search_documents]
      rw [hq]
      rfl
    simp [hres]
  · have hq' : (splitWs (lowerStr (clean_text q))).isEmpty = false :=
      Bool.not_eq_true _ ▸ (by simpa using hq)
    have hres : search_documents st q limit =
        (List.insertionSort pubDateGe
          (st.documents.filter (docMatches (splitWs (lowerStr (clean_text q)))))).take limit := by
      simp only [search_documents]
      rw [hq']
      simp
    refine ⟨?_, ?_, ?_⟩
    · rw [hres]; exact List.length_take_le _ _
    · rw [hres]
      exact (List.sorted_insertionSort pubDateGe _).sublist (List.take_sublist _ _)
    · intro d hd
      rw [hres] at hd
      have hd1 : d ∈ List.insertionSort pubDateGe
          (st.documents.filter (docMatches (splitWs (lowerStr (clean_text q))))) :=
        (List.take_sublist _ _).subset hd
      have hd2 : d ∈ st.documents.filter (docMatches (splitWs (lowerStr (clean_text q)))) :=
        (List.perm_insertionSort pubDateGe _).mem_iff.mp hd1
      have hmatch : docMatches (splitWs (lowerStr (clean_text q))) d = true :=
        (List.mem_filter.mp hd2).2
      unfold docMatches at hmatch
      obtain ⟨w, hwmem, hw⟩ := List.any_eq_true.mp hmatch
      rw [Bool.or_eq_true] at hw
      obtain ⟨hp, hmap, _, _⟩ := word_props hwmem
      refine ⟨w, hwmem, hw, ?_⟩
      intro hund
      have hu : '_' ∉ w.toList := fun hm => hund _ hm rfl
      rcases hw with hw | hw
      · left
        rw [sqlLike_pattern_eq hmap, likeM_pct_wrap_eq_sub hp hu] at hw
        exact hw
      · right
        rw [sqlLike_pattern_eq hmap, likeM_pct_wrap_eq_sub hp hu] at hw
        exact hw

/-- A document whose title is matched by the underscore wildcard without
containing the query word as a substring. -/
def docAbc : Document :=
  { document_id := "doc-underscore", title := "abc", content := "zz"
    source := "pubmed", url := none, authors := []
    publication_date := some "2024-01-02", document_type := some "paper"
    metadata := ⟨none, none, []⟩ }

/-- A knowledge base holding only `docAbc`. -/
def kbAbc : KBState := store_documents emptyKB [docAbc] none "2024-01-03T00:00:00"

/-- Claim C3, counterexample: searching the knowledge base holding only the
document titled `abc` with the query `a_c` returns that document (the
underscore is an SQL `LIKE` single-character wildcard), yet no word of the
cleaned query is a case-insensitive substring of its title or content. -/
theorem search_documents_substring_counterexample :
    ¬ (∀ d ∈ search_documents kbAbc "a_c" 5,
        ∃ w ∈ splitWs (lowerStr (clean_text "a_c")),
          listSub w.toList (lowerStr d.title).toList = true ∨
          listSub w.toList (lowerStr d.content).toList = true) := by decide

/-- Claim C4 (amended): storing a single document into an empty knowledge
base and then searching for any word of its cleaned lower-cased title that
still occurs (case-insensitively) as a substring of the raw title returns
that document, for any search limit of at least one. -/
theorem store_search_round_trip (d : Document) (w : String) (limit : Nat)
    (theme : Option String) (now : String)
    (hw : w ∈ splitWs (lowerStr (clean_text d.title)))
    (hsub : listSub w.toList (lowerStr d.title).toList = true)
    (hl : 1 ≤ limit) :
    ∃ r ∈ search_documents (store_documents emptyKB [d] theme now) w limit,
      r.id = d.document_id ∧ r.title = d.title ∧ r.content = d.content := by
  obtain ⟨hp, hmap, hne, hprops⟩ := word_props hw
  have hkeep : ∀ c ∈ w.toList, keepChar c = true := fun c hc => (hprops c hc).2
  have hnws : ∀ c ∈ w.toList, isWsChar c = false := fun c hc => (hprops c hc).1
  have hwords : splitWs (lowerStr (clean_text w)) = [w] := by
    rw [clean_text_fix hne hkeep hnws, lowerStr_fix hmap, splitWs_single hne hnws]
  set row := docRowOf d theme now with hrow
  have hstore : (store_documents emptyKB [d] theme now).documents = [row] := by
    unfold store_documents emptyKB insertOrReplaceDoc
    simp
  have hmatchrow : docMatches [w] row = true := by
    unfold docMatches
    apply List.any_eq_true.mpr
    refine ⟨w, List.mem_cons_self _ _, ?_⟩
    rw [Bool.or_eq_true]
    left
    have htitle : row.title = d.title := rfl
    rw [htitle, sqlLike_pattern_eq hmap]
    exact likeM_pct_wrap_of_sub hp hsub
  have hres : search_documents (store_documents emptyKB [d] theme now) w limit = [row] := by
    simp only [search_documents]
    rw [hwords]
    simp only [List.isEmpty_cons, Bool.false_eq_true, if_false]
    rw [hstore]
    simp only [List.filter, hmatchrow]
    rw [show List.insertionSort pubDateGe [row] = [row] by
      simp [List.insertionSort, List.orderedInsert]]
    exact List.take_of_length_le (by simpa using hl)
  rw [hres]
  exact ⟨row, List.mem_cons_self _ _, rfl, rfl, rfl⟩

/-- Claim C3, witness: the concrete instantiation on the knowledge base
holding one document, with the per-document property read off at the first
returned document. -/
theorem search_documents_sound_bounded_witness :
    (search_documents kbAbc "zz" 5).length ≤ 5
    ∧ (search_documents kbAbc "zz" 5).Pairwise pubDateGe
    ∧ ∃ w ∈ splitWs (lowerStr (clean_text "zz")),
        (sqlLike (lowerStr ((search_documents kbAbc "zz" 5).get ⟨0, by decide⟩).title)
            ("%" ++ w ++ "%") = true ∨
         sqlLike (lowerStr ((search_documents kbAbc "zz" 5).get ⟨0, by decide⟩).content)
            ("%" ++ w ++ "%") = true)
        ∧ ((∀ c ∈ w.toList, c ≠ '_') →
            (listSub w.toList
              (lowerStr ((search_documents kbAbc "zz" 5).get ⟨0, by decide⟩).title).toList
                = true ∨
             listSub w.toList
              (lowerStr ((search_documents kbAbc "zz" 5).get ⟨0, by decide⟩).content).toList
                = true)) :=
  ⟨(search_documents_sound_bounded kbAbc "zz" 5).1,
   (search_documents_sound_bounded kbAbc "zz" 5).2.1,
   (search_documents_sound_bounded kbAbc "zz" 5).2.2 _ (List.get_mem _ _ _)⟩

/-- A document whose title contains a character that cleaning removes,
gluing two fragments into a word absent from the raw title. -/
def docAt : Document :=
  { document_id := "doc-at", title := "foo@bar", content := "zz"
    source := "biorxiv", url := none, authors := []
    publication_date := some "2024-01-05", document_type := some "paper"
    metadata := ⟨none, none, []⟩ }

/-- A knowledge base holding only `docAt`. -/
def kbAt : KBState := store_documents emptyKB [docAt] none "2024-01-06T00:00:00"

/-- Claim C4, counterexample: `foobar` is a word of the cleaned title
`foo@bar` (cleaning deletes `@` without inserting a space), yet searching
for it finds nothing, because the raw title does not contain `foobar`. -/
theorem store_search_round_trip_counterexample :
    "foobar" ∈ splitWs (lowerStr (clean_text docAt.title))
    ∧ search_documents kbAt "foobar" 5 = []
    ∧ ¬ ∃ r ∈ search_documents kbAt "foobar" 5, r.id = docAt.document_id := by decide

/-- A clean-titled document for the round-trip witness. -/
def docW : Document :=
  { document_id := "doc-w", title := "Aging Results", content := "body text"
    source := "pubmed", url := none, authors := []
    publication_date := some "2024-03-01", document_type := none
    metadata := ⟨none, none, []⟩ }

/-- Claim C4, witness: storing a document titled `Aging Results` and
searching for its cleaned title word `aging` returns it. -/
theorem store_search_round_trip_witness :
    ∃ r ∈ search_documents (store_documents emptyKB [docW] none "2024-03-02") "aging" 3,
      r.id = docW.document_id ∧ r.title = docW.title ∧ r.content = docW.content :=
  store_search_round_trip docW "aging" 3 none "2024-03-02"
    (by decide) (by decide) (by decide)

/-- A simple summariser standing in for the LLM-backed summary generation. -/
def constSummarizer : List DocRow → String → Option String → String :=
  fun _ _ _ => "summary"

/-- Claim C9: when the cleaned query splits into no words, `search` returns
the fixed no-results message and leaves every table of the knowledge base
unchanged; in particular no user_interactions row is added.  (The generated
SQL would have an empty WHERE disjunction, and the exception path of
`_search_documents` yields no documents, so `search` answers before storing
any interaction.) -/
theorem contentless_query_handled (st : KBState) (q : String)
    (user_profile : Option String) (limit : Nat)
    (summarizer : List DocRow → String → Option String → String) (now : String)
    (h : splitWs (lowerStr (clean_text q)) = []) :
    search st q user_profile limit summarizer now = (noResultsMsg, st) := by
  have hs : search_documents st q (limit * 2) = [] := by
    simp only [search_documents]
    rw [h]
    rfl
  unfold search
  rw [hs]
  rfl

/-- Claim C9, witness: searching for a string of pure special characters in
a non-empty knowledge base returns the fixed message and the state itself. -/
theorem contentless_query_witness :
    search kbAbc "@#$" (some "researcher") 10 constSummarizer "2024-01-07" =
      (noResultsMsg, kbAbc) :=
  contentless_query_handled kbAbc "@#$" (some "researcher") 10 constSummarizer
    "2024-01-07" (by decide)

/-! ## MD5 (`hashlib.md5(...).hexdigest()` over UTF-8 bytes) -/

/-- UTF-8 encoding of one character as byte values. -/
def charUtf8 (c : Char) : List Nat :=
  let n := c.toNat
  if n < 128 then [n]
  else if n < 2048 then [192 ||| (n >>> 6), 128 ||| (n &&& 63)]
  else if n < 65536 then
    [224 ||| (n >>> 12), 128 ||| ((n >>> 6) &&& 63), 128 ||| (n &&& 63)]
  else
    [240 ||| (n >>> 18), 128 ||| ((n >>> 12) &&& 63),
     128 ||| ((n >>> 6) &&& 63), 128 ||| (n &&& 63)]

/-- UTF-8 encoding of a string (Python `str.encode()`). -/
def utf8Bytes (s : String) : List Nat := s.toList.flatMap charUtf8

/-- Addition modulo 2^32. -/
def add32 (a b : Nat) : Nat := (a + b) % 4294967296

/-- Left rotation of a 32-bit word. -/
def rotl32 (x n : Nat) : Nat :=
  ((x <<< n) &&& 4294967295) ||| (x >>> (32 - n))

/-- Bitwise complement of a 32-bit word. -/
def not32 (x : Nat) : Nat := 4294967295 ^^^ x

/-- The 64 MD5 sine-derived constants. -/
def md5K : List Nat :=
  [0xd76aa478, 0xe8c7b756, 0x242070db, 0xc1bdceee,
   0xf57c0faf, 0x4787c62a, 0xa8304613, 0xfd469501,
   0x698098d8, 0x8b44f7af, 0xffff5bb1, 0x895cd7be,
   0x6b901122, 0xfd987193, 0xa679438e, 0x49b40821,
   0xf61e2562, 0xc040b340, 0x265e5a51, 0xe9b6c7aa,
   0xd62f105d, 0x02441453, 0xd8a1e681, 0xe7d3fbc8,
   0x21e1cde6, 0xc33707d6, 0xf4d50d87, 0x455a14ed,
   0xa9e3e905, 0xfcefa3f8, 0x676f02d9, 0x8d2a4c8a,
   0xfffa3942, 0x8771f681, 0x6d9d6122, 0xfde5380c,
   0xa4beea44, 0x4bdecfa9, 0xf6bb4b60, 0xbebfbc70,
   0x289b7ec6, 0xeaa127fa, 0xd4ef3085, 0x04881d05,
   0xd9d4d039, 0xe6db99e5, 0x1fa27cf8, 0xc4ac5665,
   0xf4292244, 0x432aff97, 0xab9423a7, 0xfc93a039,
   0x655b59c3, 0x8f0ccc92, 0xffeff47d, 0x85845dd1,
   0x6fa87e4f, 0xfe2ce6e0, 0xa3014314, 0x4e0811a1,
   0xf7537e82, 0xbd3af235, 0x2ad7d2bb, 0xeb86d391]

/-- The 64 MD5 per-round left-rotation amounts. -/
def md5S : List Nat :=
  [7, 12, 17, 22, 7, 12, 17, 22, 7, 12, 17, 22, 7, 12, 17, 22,
   5, 9, 14, 20, 5, 9, 14, 20, 5, 9, 14, 20, 5, 9, 14, 20,
   4, 11, 16, 23, 4, 11, 16, 23, 4, 11, 16, 23, 4, 11, 16, 23,
   6, 10, 15, 21, 6, 10, 15, 21, 6, 10, 15, 21, 6, 10, 15, 21]

/-- A 64-bit value as eight little-endian bytes. -/
def le8 (n : Nat) : List Nat :=
  [n &&& 255, (n >>> 8) &&& 255, (n >>> 16) &&& 255, (n >>> 24) &&& 255,
   (n >>> 32) &&& 255, (n >>> 40) &&& 255, (n >>> 48) &&& 255, (n >>> 56) &&& 255]

/-- A 32-bit word as four little-endian bytes. -/
def le4 (n : Nat) : List Nat :=
  [n &&& 255, (n >>> 8) &&& 255, (n >>> 16) &&& 255, (n >>> 24) &&& 255]

/-- MD5 padding: a 0x80 byte, zeros to 56 mod 64 bytes, then the bit length
as a 64-bit little-endian value. -/
def md5Pad (msg : List Nat) : List Nat :=
  let len := msg.length
  let zeros := (119 - len % 64) % 64
  msg ++ [128] ++ List.replicate zeros 0 ++ le8 ((len * 8) % 18446744073709551616)

/-- Little-endian bytes to 32-bit words. -/
def bytesToWords : List Nat → List Nat
  | b0 :: b1 :: b2 :: b3 :: rest =>
    (b0 + (b1 <<< 8) + (b2 <<< 16) + (b3 <<< 24)) :: bytesToWords rest
  | _ => []

/-- Split a word list into 16-word blocks. -/
def chunks16 : List Nat → List (List Nat)
  | w0 :: w1 :: w2 :: w3 :: w4 :: w5 :: w6 :: w7 ::
    w8 :: w9 :: w10 :: w11 :: w12 :: w13 :: w14 :: w15 :: rest =>
    [w0, w1, w2, w3, w4, w5, w6, w7, w8, w9, w10, w11, w12, w13, w14, w15] ::
      chunks16 rest
  | _ => []

/-- One MD5 round step. -/
def md5Step (m : List Nat) (st : Nat × Nat × Nat × Nat) (i : Nat) :
    Nat × Nat × Nat × Nat :=
  let (a, b, c, d) := st
  let fg : Nat × Nat :=
    if i < 16 then ((b &&& c) ||| (not32 b &&& d), i)
    else if i < 32 then ((d &&& b) ||| (not32 d &&& c), (5 * i + 1) % 16)
    else if i < 48 then (b ^^^ c ^^^ d, (3 * i + 5) % 16)
    else (c ^^^ (b ||| not32 d), (7 * i) % 16)
  let newB := add32 b (rotl32 (add32 (add32 a fg.1)
    (add32 (md5K.getD i 0) (m.getD fg.2 0))) (md5S.getD i 0))
  (d, newB, b, c)

/-- Process one 16-word block. -/
def md5Chunk (st : Nat × Nat × Nat × Nat) (m : List Nat) :
    Nat × Nat × Nat × Nat :=
  let (a0, b0, c0, d0) := st
  let r := (List.range 64).foldl (md5Step m) (a0, b0, c0, d0)
  (add32 a0 r.1, add32 b0 r.2.1, add32 c0 r.2.2.1, add32 d0 r.2.2.2)

/-- Hex digit characters. -/
def hexDigit (n : Nat) : Char :=
  "0123456789abcdef".toList.getD n '0'

/-- A byte as two hex characters. -/
def byteHex (b : Nat) : List Char := [hexDigit (b >>> 4), hexDigit (b &&& 15)]

/-- MD5 digest of a byte list, rendered as 32 hex characters. -/
def md5hexBytes (msg : List Nat) : String :=
  let blocks := chunks16 (bytesToWords (md5Pad msg))
  let st := blocks.foldl md5Chunk (0x67452301, 0xefcdab89, 0x98badcfe, 0x10325476)
  String.mk ((le4 st.1 ++ le4 st.2.1 ++ le4 st.2.2.1 ++ le4 st.2.2.2).flatMap byteHex)

/-- `hashlib.md5(s.encode()).hexdigest()`. -/
def md5hex (s : String) : String := md5hexBytes (utf8Bytes s)

set_option maxRecDepth 10000 in
/-- RFC 1321 test vector: the empty message. -/
theorem md5_rfc_empty : md5hex "" = "d41d8cd98f00b204e9800998ecf8427e" := by decide

set_option maxRecDepth 10000 in
/-- RFC 1321 test vector: `abc`. -/
theorem md5_rfc_abc : md5hex "abc" = "900150983cd24fb0d6963f7d28e17f72" := by decide

/-! ## Coordinator data model (`agent_coordinator.py`) -/

/-- A row of the `sessions` table. -/
structure SessionRow where
  id : Nat
  start_time : String
  end_time : Option String
  total_queries : Nat
  total_articles : Nat
  total_pdfs : Nat
  status : String
deriving DecidableEq

/-- A row of the `queries` table (`query_hash` is `UNIQUE`). -/
structure QueryRow where
  id : Nat
  session_id : Nat
  query_hash : String
  query_text : String
  theme : String
  timestamp : String
  articles_found : Nat
  pdfs_downloaded : Nat
  status : String
  error_message : Option String
deriving DecidableEq

/-- A row of the `articles` table (`pmid` is `UNIQUE`). -/
structure ArticleRow where
  id : Nat
  query_id : Nat
  pmid : String
  title : String
  authors : String
  journal : String
  publication_date : String
  doi : String
  abstract : String
  keywords : String
  pdf_url : Option String
  pdf_downloaded : Nat
  pdf_path : Option String
  relevance_score : Option ℚ
  timestamp : String
deriving DecidableEq

/-- A row of the `theme_progress` table (`theme` is the primary key). -/
structure ThemeProgressRow where
  theme : String
  total_queries : Nat
  total_articles : Nat
  last_updated : Option String
  completion_status : String
deriving DecidableEq

/-- The coordinator's SQLite database, with the next `AUTOINCREMENT` ids. -/
structure CoordDB where
  sessions : List SessionRow
  queries : List QueryRow
  articles : List ArticleRow
  theme_progress : List ThemeProgressRow
  next_query_id : Nat
  next_article_id : Nat
deriving DecidableEq

/-- The coordinator object state: the database plus the in-memory session id
and counters. -/
structure CoordState where
  db : CoordDB
  current_session_id : Nat
  total_articles_found : Nat
  total_pdfs_downloaded : Nat
deriving DecidableEq

/-- An article dictionary as passed to `report_query_results`. -/
structure ArticleInput where
  pmid : String
  title : String
  authors : List String
  journal : String
  publication_date : String
  doi : String
  abstract : String
  keywords : List String
deriving DecidableEq

/-- Oracle for `random.choice` / `random.sample` and for the wall-clock
derived values (`datetime.now().isoformat()` and the `_get_date_range`
bounds). -/
structure Env where
  choice : List String → String
  sample : List String → Nat → List String
  now : String
  date_from : String
  date_to : String

/-- A query dictionary as produced by `_generate_queries_for_theme`. -/
structure QueryInfo where
  query : String
  theme : String
  hash : String
  date_from : String
  date_to : String
  max_results : Nat
  priority : ℚ
deriving DecidableEq

/-- `AgentCoordinator._generate_query_hash`:
`hashlib.md5(f"{query.lower().strip()}_{theme}".encode()).hexdigest()`. -/
def generate_query_hash (query theme : String) : String :=
  md5hex (stripStr (lowerStr query) ++ "_" ++ theme)

/-- `AgentCoordinator._is_query_processed`: is the hash present in the
`queries` table. -/
def is_query_processed (db : CoordDB) (query_hash : String) : Bool :=
  db.queries.any (fun r => r.query_hash = query_hash)

/-- The value the progress dict of `_get_themes_progress` ends up holding
for a theme: zero, overridden by each table row for the theme in turn (the
last row wins in the dict-building loop). -/
def progressVal (l : List ThemeProgressRow) (theme : String) : Nat :=
  l.foldl (fun v row => if row.theme = theme then row.total_articles else v) 0

/-- The recorded total article count of a theme. -/
def articlesOf (db : CoordDB) (theme : String) : Nat :=
  progressVal db.theme_progress theme

/-- The priority theme order of `get_next_queries`: the configured themes
stably sorted by ascending recorded article count (Python `sorted` is a
stable ascending sort). -/
def priorityThemes (db : CoordDB) : List String :=
  List.insertionSort (fun t1 t2 => articlesOf db t1 ≤ articlesOf db t2) researchThemes

/-- The `modifiers` dictionary of `_create_query_variations`, in insertion
order. -/
def modifiersList : List (String × List String) :=
  [("clinical", [" clinical trial", " human study", " clinical research"]),
   ("recent", [" 2020:2024[PDAT]", " recent studies"]),
   ("review", [" systematic review", " meta-analysis", " review"]),
   ("mechanism", [" mechanism", " pathway", " molecular"]),
   ("intervention", [" intervention", " treatment", " therapy"])]

/-- The modifier loop of `_create_query_variations`: stop at three
variations; pick one modifier per group and append it unless it already
occurs in the lower-cased base query. -/
def variationsGo (env : Env) (base_query : String) :
    List (String × List String) → List String → List String
  | [], acc => acc
  | (_, mods) :: rest, acc =>
    if 3 ≤ acc.length then acc
    else
      let modifier := env.choice mods
      if strContains (lowerStr base_query) modifier then variationsGo env base_query rest acc
      else variationsGo env base_query rest (acc ++ [base_query ++ modifier])

/-- `AgentCoordinator._create_query_variations` (the `theme` argument is
unused, as in the code). -/
def create_query_variations (env : Env) (base_query : String) (theme : String) :
    List String :=
  variationsGo env base_query modifiersList [base_query]

/-- The query dictionary built for one variation. -/
def mkQueryInfo (env : Env) (variation theme : String) : QueryInfo :=
  { query := variation
    theme := theme
    hash := generate_query_hash variation theme
    date_from := env.date_from
    date_to := env.date_to
    max_results := maxResultsPerQuery
    priority := calculate_query_priority variation theme }

/-- The variation loop of `_generate_queries_for_theme`: respect the cap and
skip hashes already present in the `queries` table. -/
def varsGo (db : CoordDB) (env : Env) (theme : String) (max_count : Nat) :
    List String → List QueryInfo → List QueryInfo
  | [], acc => acc
  | v :: vs, acc =>
    if max_count ≤ acc.length then acc
    else if is_query_processed db (generate_query_hash v theme) then
      varsGo db env theme max_count vs acc
    else varsGo db env theme max_count vs (acc ++ [mkQueryInfo env v theme])

/-- The base-query loop of `_generate_queries_for_theme`. -/
def basesGo (db : CoordDB) (env : Env) (theme : String) (max_count : Nat) :
    List String → List QueryInfo → List QueryInfo
  | [], acc => acc
  | b :: bs, acc =>
    if max_count ≤ acc.length then acc
    else basesGo db env theme max_count bs
      (varsGo db env theme max_count (create_query_variations env b theme) acc)

/-- `AgentCoordinator._generate_queries_for_theme`. -/
def generate_queries_for_theme (db : CoordDB) (env : Env) (theme : String)
    (max_count : Nat) : List QueryInfo :=
  match queryTemplates.lookup theme with
  | none => []
  | some base_queries => basesGo db env theme max_count base_queries []

/-- The primary pass of `get_next_queries` over the sorted themes: skip any
theme at or above `min_articles_per_theme`. -/
def passOneGo (db : CoordDB) (env : Env) (count : Nat) :
    List String → List QueryInfo → List QueryInfo
  | [], acc => acc
  | t :: ts, acc =>
    if count ≤ acc.length then acc
    else if minArticlesPerTheme ≤ articlesOf db t then passOneGo db env count ts acc
    else passOneGo db env count ts (acc ++ generate_queries_for_theme db env t (count - acc.length))

/-- The fallback pass of `get_next_queries` over the sampled themes (no
coverage filter). -/
def passTwoGo (db : CoordDB) (env : Env) (count : Nat) :
    List String → List QueryInfo → List QueryInfo
  | [], acc => acc
  | t :: ts, acc =>
    if count ≤ acc.length then acc
    else passTwoGo db env count ts (acc ++ generate_queries_for_theme db env t (count - acc.length))

/-- `AgentCoordinator._save_query_to_db`: `INSERT OR IGNORE` keyed on the
unique `query_hash`. -/
def save_query_to_db (db : CoordDB) (session_id : Nat) (q : QueryInfo) (now : String) :
    CoordDB :=
  if db.queries.any (fun r => r.query_hash = q.hash) then db
  else
    { db with
      queries := db.queries ++
        [QueryRow.mk db.next_query_id session_id q.hash q.query q.theme now 0 0 "pending" none]
      next_query_id := db.next_query_id + 1 }

/-- `AgentCoordinator.get_next_queries`: primary pass over under-covered
themes in ascending coverage order, fallback pass over up to three sampled
themes when short, then save everything and return the first `count`. -/
def get_next_queries (st : CoordState) (env : Env) (count : Nat) :
    List QueryInfo × CoordState :=
  let p1 := passOneGo st.db env count (priorityThemes st.db) []
  let queries :=
    if p1.length < count then
      passTwoGo st.db env count
        (env.sample (priorityThemes st.db) (min (priorityThemes st.db).length 3)) p1
    else p1
  let db' := queries.foldl (fun d q => save_query_to_db d st.current_session_id q env.now) st.db
  (queries.take count, { st with db := db' })

/-- `AgentCoordinator._save_article_to_db`: `INSERT OR IGNORE` keyed on the
unique `pmid`. -/
def save_article_to_db (db : CoordDB) (query_id : Nat) (a : ArticleInput) (now : String) :
    CoordDB :=
  if db.articles.any (fun r => r.pmid = a.pmid) then db
  else
    { db with
      articles := db.articles ++
        [ArticleRow.mk db.next_article_id query_id a.pmid a.title (jsonDumpList a.authors)
          a.journal a.publication_date a.doi a.abstract (jsonDumpList a.keywords)
          none 0 none none now]
      next_article_id := db.next_article_id + 1 }

/-- `AgentCoordinator._update_theme_progress`: `INSERT OR REPLACE` keyed on
the `theme` primary key, adding `new_articles` to the coalesced previous
total; unspecified columns take their schema defaults. -/
def update_theme_progress (db : CoordDB) (theme : String) (new_articles : Nat)
    (now : String) : CoordDB :=
  let old := ((db.theme_progress.find? (fun r => r.theme = theme)).map
    (fun r => r.total_articles)).getD 0
  { db with
    theme_progress := db.theme_progress.filter (fun r => r.theme ≠ theme) ++
      [ThemeProgressRow.mk theme 0 (old + new_articles) (some now) "active"] }

/-- `AgentCoordinator.report_query_results`: update the query row's result
columns, and if the hash is known, store the articles, bump the theme
progress and the in-memory counters; an unknown hash returns after the
no-op `UPDATE`. -/
def report_query_results (st : CoordState) (query_hash : String)
    (articles : List ArticleInput) (pdfs_downloaded : Nat) (error : Option String)
    (now : String) : CoordState :=
  let status := if error.isSome then "error" else "completed"
  let queries1 := st.db.queries.map (fun r =>
    if r.query_hash = query_hash then
      { r with
        articles_found := articles.length
        pdfs_downloaded := pdfs_downloaded
        status := status
        error_message := error }
    else r)
  let db1 := { st.db with queries := queries1 }
  match queries1.find? (fun r => r.query_hash = query_hash) with
  | none => { st with db := db1 }
  | some row =>
    let db2 := articles.foldl (fun d a => save_article_to_db d row.id a now) db1
    let db3 := update_theme_progress db2 row.theme articles.length now
    { st with
      db := db3
      total_articles_found := st.total_articles_found + articles.length
      total_pdfs_downloaded := st.total_pdfs_downloaded + pdfs_downloaded }

/-- The database right after `__init__` on a fresh file: empty tables except
the session created by `_create_session`. -/
def initDB : CoordDB :=
  ⟨[SessionRow.mk 1 "2024-10-01T00:00:00" none 0 0 0 "active"], [], [], [], 1, 1⟩

/-- The coordinator state right after `__init__` on a fresh database. -/
def initCoordState : CoordState := ⟨initDB, 1, 0, 0⟩

/-- A concrete oracle: `random.choice` picks the first element and
`random.sample` the first `k` elements — one possible outcome of the random
calls. -/
def fixedEnv : Env :=
  { choice := fun l => l.headD ""
    sample := fun l n => l.take n
    now := "2024-10-01T00:00:01"
    date_from := "2019/10/01"
    date_to := "2024/10/01" }

/-! ## Claims about the query hash -/

/-- Lower-casing does not change whether a character is whitespace. -/
theorem isWsChar_lowerChar (c : Char) : isWsChar (lowerChar c) = isWsChar c := by
  unfold lowerChar Char.toLower
  by_cases h : c.toNat ≥ 65 ∧ c.toNat ≤ 90
  · rw [if_pos h]
    have hv : (c.toNat + 32).isValidChar := Or.inl (by omega)
    have h1 : isWsChar (Char.ofNat (c.toNat + 32)) = false := by
      simp only [isWsChar, toNat_ofNat_valid hv, Bool.or_eq_false_iff,
        decide_eq_false_iff_not]
      omega
    have h2 : isWsChar c = false := by
      simp only [isWsChar, Bool.or_eq_false_iff, decide_eq_false_iff_not]
      omega
    rw [h1, h2]
  · rw [if_neg h]

/-- `dropWhile` on whitespace commutes with lower-casing. -/
theorem dropWhile_map_lowerChar (l : List Char) :
    (l.map lowerChar).dropWhile isWsChar = (l.dropWhile isWsChar).map lowerChar := by
  induction l with
  | nil => rfl
  | cons c cs ih =>
    cases h : isWsChar c
    · simp [List.dropWhile_cons, isWsChar_lowerChar, h]
    · simp [List.dropWhile_cons, isWsChar_lowerChar, h, ih]

/-- Stripping commutes with lower-casing. -/
theorem stripChars_map_lowerChar (l : List Char) :
    stripChars (l.map lowerChar) = (stripChars l).map lowerChar := by
  unfold stripChars
  rw [dropWhile_map_lowerChar, ← List.map_reverse, dropWhile_map_lowerChar,
    ← List.map_reverse]

/-- `strip` after `lower` equals `lower` after `strip`. -/
theorem strip_lower_comm (q : String) : stripStr (lowerStr q) = lowerStr (stripStr q) := by
  unfold stripStr lowerStr
  show String.mk (stripChars (q.toList.map lowerChar)) =
    String.mk ((stripChars q.toList).map lowerChar)
  rw [stripChars_map_lowerChar]

/-- Claim C8: `_generate_query_hash(q, t)` is the MD5 hex digest of
`lower(strip(q)) + "_" + t`; being a function it is deterministic, and any
two queries for the same theme with the same lower-cased stripped form — in
particular differing only in letter case or in surrounding whitespace —
receive the same hash. -/
theorem query_hash_normalized :
    (∀ q t, generate_query_hash q t = md5hex (lowerStr (stripStr q) ++ "_" ++ t))
    ∧ ∀ q1 q2 t, lowerStr (stripStr q1) = lowerStr (stripStr q2) →
        generate_query_hash q1 t = generate_query_hash q2 t := by
  constructor
  · intro q t
    unfold generate_query_hash
    rw [strip_lower_comm]
  · intro q1 q2 t h
    unfold generate_query_hash
    rw [strip_lower_comm, strip_lower_comm, h]

/-- Claim C8, witness: a query with different letter case and surrounding
whitespace hashes identically to its normalized form. -/
theorem query_hash_normalized_witness :
    generate_query_hash "  Telomere AGING " "telomeres_aging" =
      generate_query_hash "telomere aging" "telomeres_aging" :=
  query_hash_normalized.2 "  Telomere AGING " "telomere aging" "telomeres_aging"
    (by decide)

/-! ## Membership facts about query generation -/

/-- Queries emitted by the variation loop beyond the accumulator carry the
loop's theme and an unprocessed hash. -/
theorem varsGo_mem {db : CoordDB} {env : Env} {theme : String} {m : Nat} :
    ∀ {vs : List String} {acc : List QueryInfo} {q : QueryInfo},
      q ∈ varsGo db env theme m vs acc →
      q ∈ acc ∨ (q.theme = theme ∧ is_query_processed db q.hash = false) := by
  intro vs
  induction vs with
  | nil => intro acc q h; exact Or.inl h
  | cons v vs ih =>
    intro acc q h
    rw [varsGo] at h
    split at h
    · exact Or.inl h
    · split at h
      · exact ih h
      · rcases ih h with h' | h'
        · rcases List.mem_append.mp h' with h'' | h''
          · exact Or.inl h''
          · rcases List.mem_singleton.mp h'' with rfl
            refine Or.inr ⟨rfl, ?_⟩
            rename_i hnp
            exact Bool.not_eq_true _ ▸ (by simpa using hnp)
        · exact Or.inr h'

/-- The same fact for the base-query loop. -/
theorem basesGo_mem {db : CoordDB} {env : Env} {theme : String} {m : Nat} :
    ∀ {bs : List String} {acc : List QueryInfo} {q : QueryInfo},
      q ∈ basesGo db env theme m bs acc →
      q ∈ acc ∨ (q.theme = theme ∧ is_query_processed db q.hash = false) := by
  intro bs
  induction bs with
  | nil => intro acc q h; exact Or.inl h
  | cons b bs ih =>
    intro acc q h
    rw [basesGo] at h
    split at h
    · exact Or.inl h
    · rcases ih h with h' | h'
      · exact varsGo_mem h'
      · exact Or.inr h'

/-- A successful template lookup means the key is a configured theme. -/
theorem lookup_mem_researchThemes {t : String}
    (h : (queryTemplates.lookup t).isSome) : t ∈ researchThemes := by
  have hkeys : ∀ {l : List (String × List String)},
      (l.lookup t).isSome → t ∈ l.map Prod.fst := by
    intro l
    induction l with
    | nil => intro h'; simp [List.lookup] at h'
    | cons p ps ih =>
      intro h'
      rw [List.lookup] at h'
      split at h'
      · rename_i heq
        have : p.1 = t := Eq.symm (by simpa using heq)
        exact this ▸ List.mem_map_of_mem Prod.fst (List.mem_cons_self _ _)
      · exact List.mem_cons_of_mem _ (ih h')
  have h1 := hkeys h
  have h2 : queryTemplates.map Prod.fst = researchThemes := by decide
  rwa [h2] at h1

/-- Queries from `_generate_queries_for_theme` carry the theme, an
unprocessed hash, and a configured template. -/
theorem generate_queries_mem {db : CoordDB} {env : Env} {t : String} {m : Nat}
    {q : QueryInfo} (h : q ∈ generate_queries_for_theme db env t m) :
    q.theme = t ∧ is_query_processed db q.hash = false ∧
      (queryTemplates.lookup q.theme).isSome := by
  unfold generate_queries_for_theme at h
  split at h
  · cases h
  · rcases basesGo_mem h with h' | h'
    · cases h'
    · rename_i hsome
      exact ⟨h'.1, h'.2, by rw [h'.1]; simp [hsome]⟩

/-- Queries emitted by the primary pass beyond the accumulator have
unprocessed hashes and configured themes. -/
theorem passOneGo_mem {db : CoordDB} {env : Env} {count : Nat} :
    ∀ {ts : List String} {acc : List QueryInfo} {q : QueryInfo},
      q ∈ passOneGo db env count ts acc →
      q ∈ acc ∨ (is_query_processed db q.hash = false ∧
        (queryTemplates.lookup q.theme).isSome) := by
  intro ts
  induction ts with
  | nil => intro acc q h; exact Or.inl h
  | cons t ts ih =>
    intro acc q h
    rw [passOneGo] at h
    split at h
    · exact Or.inl h
    · split at h
      · exact ih h
      · rcases ih h with h' | h'
        · rcases List.mem_append.mp h' with h'' | h''
          · exact Or.inl h''
          · have := generate_queries_mem h''
            exact Or.inr ⟨this.2.1, this.2.2⟩
        · exact Or.inr h'

/-- The same fact for the fallback pass. -/
theorem passTwoGo_mem {db : CoordDB} {env : Env} {count : Nat} :
    ∀ {ts : List String} {acc : List QueryInfo} {q : QueryInfo},
      q ∈ passTwoGo db env count ts acc →
      q ∈ acc ∨ (is_query_processed db q.hash = false ∧
        (queryTemplates.lookup q.theme).isSome) := by
  intro ts
  induction ts with
  | nil => intro acc q h; exact Or.inl h
  | cons t ts ih =>
    intro acc q h
    rw [passTwoGo] at h
    split at h
    · exact Or.inl h
    · rcases ih h with h' | h'
      · rcases List.mem_append.mp h' with h'' | h''
        · exact Or.inl h''
        · have := generate_queries_mem h''
          exact Or.inr ⟨this.2.1, this.2.2⟩
      · exact Or.inr h'

/-- Every query in the batch assembled by `get_next_queries` (before
truncation and saving) has an unprocessed hash and a configured theme. -/
theorem get_next_queries_mem {st : CoordState} {env : Env} {count : Nat}
    {q : QueryInfo} (h : q ∈ (get_next_queries st env count).1) :
    is_query_processed st.db q.hash = false ∧
      (queryTemplates.lookup q.theme).isSome := by
  simp only [get_next_queries] at h
  have h1 := (List.take_sublist _ _).subset h
  split at h1
  · rcases passTwoGo_mem h1 with h' | h'
    · rcases passOneGo_mem h' with h'' | h''
      · cases h''
      · exact h''
    · exact h'
  · rcases passOneGo_mem h1 with h' | h'
    · cases h'
    · exact h'

/-! ## Claims C7 and C1 -/

/-- Claim C7: `get_next_queries(count)` returns at most `count` queries,
each for a theme drawn from the fixed default list of exactly ten research
themes — for every database state, random outcome and count. -/
theorem scheduler_bounded_static (st : CoordState) (env : Env) (count : Nat) :
    (get_next_queries st env count).1.length ≤ count
    ∧ (∀ q ∈ (get_next_queries st env count).1, q.theme ∈ researchThemes)
    ∧ researchThemes.length = 10 := by
  refine ⟨?_, ?_, by decide⟩
  · simp only [get_next_queries]
    exact List.length_take_le _ _
  · intro q hq
    exact lookup_mem_researchThemes (get_next_queries_mem hq).2

/-- Claim C7, witness: a concrete call returns at most two queries, the
first of which is for a configured theme. -/
theorem scheduler_bounded_static_witness :
    (get_next_queries initCoordState fixedEnv 2).1.length ≤ 2
    ∧ ((get_next_queries initCoordState fixedEnv 2).1.get
        ⟨0, by decide⟩).theme ∈ researchThemes
    ∧ researchThemes.length = 10 :=
  ⟨(scheduler_bounded_static initCoordState fixedEnv 2).1,
   (scheduler_bounded_static initCoordState fixedEnv 2).2.1 _ (List.get_mem _ _ _),
   (scheduler_bounded_static initCoordState fixedEnv 2).2.2⟩

/-- Claim C1 (amended): no query returned by `get_next_queries` has a hash
already recorded in the `queries` table at the start of the call.  (The
second half of the original claim — that no two queries of one returned
batch share a hash — is refuted by `batch_duplicate_hash_counterexample`:
the fallback pass can regenerate a query produced by the primary pass,
because the batch is saved only after both passes.) -/
theorem returned_queries_unprocessed (st : CoordState) (env : Env) (count : Nat) :
    ∀ q ∈ (get_next_queries st env count).1,
      is_query_processed st.db q.hash = false :=
  fun _ hq => (get_next_queries_mem hq).1

/-- Claim C1, witness: the first query of a concrete call has a hash absent
from the (empty) queries table. -/
theorem returned_queries_unprocessed_witness :
    is_query_processed initCoordState.db
      (((get_next_queries initCoordState fixedEnv 2).1.get ⟨0, by decide⟩).hash) = false :=
  returned_queries_unprocessed initCoordState fixedEnv 2 _ (List.get_mem _ _ _)

set_option maxRecDepth 40000 in
/-- Claim C1, counterexample: on a fresh database, asking for 151 queries
makes the primary pass emit all 150 template variations and the fallback
pass then regenerates the very first query (nothing has been saved yet), so
the returned batch contains the same hash twice — at positions 0 and 150. -/
theorem batch_duplicate_hash_counterexample :
    ¬ ((get_next_queries initCoordState fixedEnv 151).1.map QueryInfo.hash).Nodup := by
  intro h
  have hinj := List.nodup_iff_injective_get.mp h
  have h0 : (0 : Nat) <
      ((get_next_queries initCoordState fixedEnv 151).1.map QueryInfo.hash).length := by
    decide
  have h150 : (150 : Nat) <
      ((get_next_queries initCoordState fixedEnv 151).1.map QueryInfo.hash).length := by
    decide
  have heq : ((get_next_queries initCoordState fixedEnv 151).1.map QueryInfo.hash).get
        ⟨0, h0⟩ =
      ((get_next_queries initCoordState fixedEnv 151).1.map QueryInfo.hash).get
        ⟨150, h150⟩ := rfl
  have hfin := hinj heq
  have : (0 : Nat) = 150 := congrArg Fin.val hfin
  exact absurd this (by decide)

/-! ## Claim C2 -/

/-- Invariant of the primary pass: over a theme list sorted by ascending
recorded coverage, every emitted query is for an under-covered theme, and
queries appear in ascending coverage order. -/
theorem passOneGo_sorted_inv (db : CoordDB) (env : Env) (count : Nat) :
    ∀ {ts : List String} {acc : List QueryInfo},
      ts.Pairwise (fun t1 t2 => articlesOf db t1 ≤ articlesOf db t2) →
      (∀ q ∈ acc, articlesOf db q.theme < minArticlesPerTheme) →
      acc.Pairwise (fun q1 q2 => articlesOf db q1.theme ≤ articlesOf db q2.theme) →
      (∀ q ∈ acc, ∀ t ∈ ts, articlesOf db q.theme ≤ articlesOf db t) →
      (∀ q ∈ passOneGo db env count ts acc,
        articlesOf db q.theme < minArticlesPerTheme)
      ∧ (passOneGo db env count ts acc).Pairwise
          (fun q1 q2 => articlesOf db q1.theme ≤ articlesOf db q2.theme) := by
  intro ts
  induction ts with
  | nil =>
    intro acc _ h1 h2 _
    exact ⟨h1, h2⟩
  | cons t ts ih =>
    intro acc hts hlt hpair hcross
    rw [passOneGo]
    split
    · exact ⟨hlt, hpair⟩
    · split
      · exact ih (List.pairwise_cons.mp hts).2 hlt hpair
          (fun q hq t' ht' => hcross q hq t' (List.mem_cons_of_mem _ ht'))
      · rename_i hcap hskip
        have hlt_t : articlesOf db t < minArticlesPerTheme := lt_of_not_le hskip
        have hgen_theme : ∀ q ∈ generate_queries_for_theme db env t (count - acc.length),
            q.theme = t := fun q hq => (generate_queries_mem hq).1
        refine ih (List.pairwise_cons.mp hts).2 ?_ ?_ ?_
        · intro q hq
          rcases List.mem_append.mp hq with h' | h'
          · exact hlt q h'
          · rw [hgen_theme q h']
            exact hlt_t
        · refine List.pairwise_append.mpr ⟨hpair, ?_, ?_⟩
          · refine List.pairwise_of_forall_mem_list ?_
            intro a ha b hb
            rw [hgen_theme a ha, hgen_theme b hb]
          · intro a ha b hb
            rw [hgen_theme b hb]
            exact hcross a ha t (List.mem_cons_self _ _)
        · intro q hq t' ht'
          rcases List.mem_append.mp hq with h' | h'
          · exact hcross q h' t' (List.mem_cons_of_mem _ ht')
          · rw [hgen_theme q h']
            exact (List.pairwise_cons.mp hts).1 t' ht'

/-- Claim C2: `get_next_queries` considers the themes in ascending order of
their recorded total article count (`priorityThemes` is sorted), its
primary pass emits queries only for themes strictly below
`min_articles_per_theme` (default 20), and within the primary pass queries
for a less-covered theme come before queries for a more-covered theme. -/
theorem under_covered_themes_prioritized (db : CoordDB) (env : Env) (count : Nat) :
    (priorityThemes db).Pairwise (fun t1 t2 => articlesOf db t1 ≤ articlesOf db t2)
    ∧ (∀ q ∈ passOneGo db env count (priorityThemes db) [],
        articlesOf db q.theme < minArticlesPerTheme)
    ∧ (passOneGo db env count (priorityThemes db) []).Pairwise
        (fun q1 q2 => articlesOf db q1.theme ≤ articlesOf db q2.theme) := by
  have hsorted : (priorityThemes db).Pairwise
      (fun t1 t2 => articlesOf db t1 ≤ articlesOf db t2) := by
    letI : IsTotal String (fun t1 t2 => articlesOf db t1 ≤ articlesOf db t2) :=
      ⟨fun _ _ => Nat.le_total _ _⟩
    letI : IsTrans String (fun t1 t2 => articlesOf db t1 ≤ articlesOf db t2) :=
      ⟨fun _ _ _ h1 h2 => Nat.le_trans h1 h2⟩
    exact List.sorted_insertionSort _ researchThemes
  have hinv := passOneGo_sorted_inv db env count hsorted
    (by intro q hq; cases hq) List.Pairwise.nil (by intro q hq; cases hq)
  exact ⟨hsorted, hinv.1, hinv.2⟩

/-- Claim C2, witness: the concrete instantiation on the fresh database,
with the coverage bound read off at the first emitted query. -/
theorem under_covered_themes_witness :
    (priorityThemes initDB).Pairwise
      (fun t1 t2 => articlesOf initDB t1 ≤ articlesOf initDB t2)
    ∧ articlesOf initDB
        ((passOneGo initDB fixedEnv 3 (priorityThemes initDB) []).get
          ⟨0, by decide⟩).theme < minArticlesPerTheme
    ∧ (passOneGo initDB fixedEnv 3 (priorityThemes initDB) []).Pairwise
        (fun q1 q2 => articlesOf initDB q1.theme ≤ articlesOf initDB q2.theme) :=
  ⟨(under_covered_themes_prioritized initDB fixedEnv 3).1,
   (under_covered_themes_prioritized initDB fixedEnv 3).2.1 _ (List.get_mem _ _ _),
   (under_covered_themes_prioritized initDB fixedEnv 3).2.2⟩

/-! ## Claims C5 and C10 -/

/-- `find?` on a hash-preserving row update maps through. -/
theorem find?_map_hash_pres {l : List QueryRow} {h : String} {f : QueryRow → QueryRow}
    (hpres : ∀ r, (f r).query_hash = r.query_hash) :
    (l.map f).find? (fun r => r.query_hash = h) =
      (l.find? (fun r => r.query_hash = h)).map f := by
  induction l with
  | nil => rfl
  | cons r rest ih =>
    simp only [List.map_cons, List.find?_cons]
    cases hr : (decide (r.query_hash = h)) with
    | true =>
      rw [show (decide ((f r).query_hash = h)) = true by rw [hpres r]; exact hr]
      rfl
    | false =>
      rw [show (decide ((f r).query_hash = h)) = false by rw [hpres r]; exact hr]
      exact ih

/-- Storing an article never touches `theme_progress`. -/
theorem save_article_theme_progress (db : CoordDB) (qid : Nat) (a : ArticleInput)
    (now : String) : (save_article_to_db db qid a now).theme_progress = db.theme_progress := by
  unfold save_article_to_db
  split <;> rfl

/-- Storing a batch of articles never touches `theme_progress`. -/
theorem foldl_save_articles_theme_progress (qid : Nat) (now : String) :
    ∀ (articles : List ArticleInput) (db : CoordDB),
      (articles.foldl (fun d a => save_article_to_db d qid a now) db).theme_progress =
        db.theme_progress := by
  intro articles
  induction articles with
  | nil => intro db; rfl
  | cons a rest ih =>
    intro db
    rw [List.foldl_cons, ih, save_article_theme_progress]

/-- Folding the progress reader over rows none of which carry the theme
leaves the value unchanged. -/
theorem progressVal_fold_const {t : String} :
    ∀ {l : List ThemeProgressRow} {v : Nat}, (∀ r ∈ l, r.theme ≠ t) →
      l.foldl (fun v row => if row.theme = t then row.total_articles else v) v = v := by
  intro l
  induction l with
  | nil => intro v _; rfl
  | cons r rest ih =>
    intro v h
    rw [List.foldl_cons, if_neg (h r (List.mem_cons_self _ _))]
    exact ih (fun r' hr' => h r' (List.mem_cons_of_mem _ hr'))

/-- With pairwise-distinct themes (the `PRIMARY KEY` invariant), the
last-row-wins read agrees with the first-match read of the SQL subquery. -/
theorem progressVal_eq_find? {t : String} :
    ∀ {l : List ThemeProgressRow},
      l.Pairwise (fun r1 r2 => r1.theme ≠ r2.theme) →
      progressVal l t =
        ((l.find? (fun r => r.theme = t)).map (fun r => r.total_articles)).getD 0 := by
  intro l
  induction l with
  | nil => intro _; rfl
  | cons r rest ih =>
    intro hpw
    obtain ⟨hhead, htail⟩ := List.pairwise_cons.mp hpw
    unfold progressVal
    rw [List.foldl_cons, List.find?_cons]
    cases hr : (decide (r.theme = t)) with
    | true =>
      have hrt : r.theme = t := of_decide_eq_true hr
      rw [if_pos hrt]
      rw [progressVal_fold_const (fun r' hr' => by
        intro he
        exact hhead r' hr' (hrt.trans he.symm))]
      rfl
    | false =>
      have hrt : ¬ r.theme = t := of_decide_eq_false hr
      rw [if_neg hrt]
      exact ih htail

/-- Reading the updated table at the updated theme yields the appended
row's total. -/
theorem progressVal_update_self (l : List ThemeProgressRow) (t : String)
    (row : ThemeProgressRow) (hrow : row.theme = t) :
    progressVal (l.filter (fun r => r.theme ≠ t) ++ [row]) t = row.total_articles := by
  unfold progressVal
  rw [List.foldl_append, List.foldl_cons, if_pos hrow]
  rfl

/-- Claim C5: reporting results against a hash recorded for theme `t` with
`n` articles raises the recorded `total_articles` of `t` by exactly `n`,
and leaves the `theme_progress` rows of every other theme unchanged (stated
under the primary-key invariant that themes are pairwise distinct). -/
theorem report_accumulates_theme_progress
    (st : CoordState) (query_hash : String) (articles : List ArticleInput)
    (pdfs_downloaded : Nat) (error : Option String) (now : String)
    (t : String) (row : QueryRow)
    (hfind : st.db.queries.find? (fun r => r.query_hash = query_hash) = some row)
    (ht : row.theme = t)
    (hpw : st.db.theme_progress.Pairwise (fun r1 r2 => r1.theme ≠ r2.theme)) :
    articlesOf (report_query_results st query_hash articles pdfs_downloaded error now).db t =
      articlesOf st.db t + articles.length
    ∧ (report_query_results st query_hash articles pdfs_downloaded error
        now).db.theme_progress.filter (fun r => r.theme ≠ t) =
      st.db.theme_progress.filter (fun r => r.theme ≠ t) := by
  have hftheme : ∀ r : QueryRow,
      (if r.query_hash = query_hash then
        { r with
          articles_found := articles.length
          pdfs_downloaded := pdfs_downloaded
          status := if error.isSome then "error" else "completed"
          error_message := error }
      else r).theme = r.theme := by
    intro r
    by_cases hc : r.query_hash = query_hash
    · rw [if_pos hc]
    · rw [if_neg hc]
  have hfid : ∀ r : QueryRow,
      (if r.query_hash = query_hash then
        { r with
          articles_found := articles.length
          pdfs_downloaded := pdfs_downloaded
          status := if error.isSome then "error" else "completed"
          error_message := error }
      else r).id = r.id := by
    intro r
    by_cases hc : r.query_hash = query_hash
    · rw [if_pos hc]
    · rw [if_neg hc]
  have hred : report_query_results st query_hash articles pdfs_downloaded error now =
      { st with
        db := update_theme_progress
          (articles.foldl (fun d a => save_article_to_db d row.id a now)
            { st.db with
              queries := st.db.queries.map (fun r =>
                if r.query_hash = query_hash then
                  { r with
                    articles_found := articles.length
                    pdfs_downloaded := pdfs_downloaded
                    status := if error.isSome then "error" else "completed"
                    error_message := error }
                else r) })
          t articles.length now
        total_articles_found := st.total_articles_found + articles.length
        total_pdfs_downloaded := st.total_pdfs_downloaded + pdfs_downloaded } := by
    simp only [report_query_results]
    rw [find?_map_hash_pres (fun r => by split <;> rfl), hfind, Option.map_some']
    show { st with
        db := update_theme_progress _
          ((if row.query_hash = query_hash then
              { row with
                articles_found := articles.length
                pdfs_downloaded := pdfs_downloaded
                status := if error.isSome then "error" else "completed"
                error_message := error }
            else row).theme) articles.length now
        total_articles_found := _
        total_pdfs_downloaded := _ } = _
    rw [hfid row, hftheme row, ht]
  rw [hred]
  constructor
  · show progressVal _ t = progressVal st.db.theme_progress t + articles.length
    simp only [update_theme_progress, foldl_save_articles_theme_progress]
    rw [progressVal_update_self st.db.theme_progress t _ rfl]
    rw [progressVal_eq_find? hpw]
  · show List.filter _ _ = _
    simp only [update_theme_progress, foldl_save_articles_theme_progress]
    rw [List.filter_append]
    have h1 : List.filter (fun r => r.theme ≠ t)
        (List.filter (fun r => r.theme ≠ t) st.db.theme_progress) =
        List.filter (fun r => r.theme ≠ t) st.db.theme_progress :=
      List.filter_eq_self.mpr (fun r hr => (List.mem_filter.mp hr).2)
    have h2 : List.filter (fun r => r.theme ≠ t)
        [ThemeProgressRow.mk t 0
          (((st.db.theme_progress.find? (fun r => r.theme = t)).map
            (fun r => r.total_articles)).getD 0 + articles.length) (some now) "active"] =
        [] := by
      simp [List.filter]
    rw [h1, h2, List.append_nil]

/-- A concrete coordinator state with one pending query and one progress
row, for the witnesses. -/
def reportState : CoordState :=
  ⟨⟨[SessionRow.mk 1 "2024-10-01T00:00:00" none 0 0 0 "active"],
    [QueryRow.mk 1 1 "h1" "telomeres aging longevity" "telomeres_aging"
      "2024-10-01T00:00:01" 0 0 "pending" none],
    [],
    [ThemeProgressRow.mk "telomeres_aging" 0 7 (some "2024-10-01T00:00:02") "active"],
    2, 1⟩, 1, 5, 2⟩

/-- A concrete pair of reported articles. -/
def articlesIn : List ArticleInput :=
  [ArticleInput.mk "p1" "T1" ["A1"] "J1" "2024-01-01" "d1" "ab1" ["k1"],
   ArticleInput.mk "p2" "T2" [] "J2" "2024-02-01" "d2" "ab2" []]

/-- Claim C5, witness: reporting two articles for the recorded hash raises
the theme's total by two and leaves other progress rows untouched. -/
theorem report_accumulates_witness :
    articlesOf (report_query_results reportState "h1" articlesIn 1 none
      "2024-10-01T00:00:03").db "telomeres_aging" =
      articlesOf reportState.db "telomeres_aging" + articlesIn.length
    ∧ (report_query_results reportState "h1" articlesIn 1 none
        "2024-10-01T00:00:03").db.theme_progress.filter
          (fun r => r.theme ≠ "telomeres_aging") =
      reportState.db.theme_progress.filter (fun r => r.theme ≠ "telomeres_aging") :=
  report_accumulates_theme_progress reportState "h1" articlesIn 1 none
    "2024-10-01T00:00:03" "telomeres_aging"
    (QueryRow.mk 1 1 "h1" "telomeres aging longevity" "telomeres_aging"
      "2024-10-01T00:00:01" 0 0 "pending" none)
    (by decide) (by decide) (by decide)

/-- Claim C10: reporting against a hash absent from the `queries` table
leaves the whole coordinator state unchanged — the `UPDATE` matches no row,
the `SELECT` finds nothing and the function returns before storing
articles, touching `theme_progress`, or bumping the in-memory counters. -/
theorem report_unknown_hash_noop (st : CoordState) (query_hash : String)
    (articles : List ArticleInput) (pdfs_downloaded : Nat) (error : Option String)
    (now : String) (h : ∀ r ∈ st.db.queries, r.query_hash ≠ query_hash) :
    report_query_results st query_hash articles pdfs_downloaded error now = st := by
  simp only [report_query_results]
  have hmap : st.db.queries.map (fun r =>
      if r.query_hash = query_hash then
        { r with
          articles_found := articles.length
          pdfs_downloaded := pdfs_downloaded
          status := if error.isSome then "error" else "completed"
          error_message := error }
      else r) = st.db.queries := by
    rw [List.map_congr_left (fun r hr => if_neg (h r hr))]
    exact List.map_id _
  rw [hmap]
  have hfind : st.db.queries.find? (fun r => r.query_hash = query_hash) = none :=
    List.find?_eq_none.mpr (fun r hr => by simpa using h r hr)
  rw [hfind]

/-- Claim C10, witness: reporting with an unrecorded hash returns the state
unchanged. -/
theorem report_unknown_hash_noop_witness :
    report_query_results reportState "absent-hash" articlesIn 3 none
      "2024-10-01T00:00:04" = reportState :=
  report_unknown_hash_noop reportState "absent-hash" articlesIn 3 none
    "2024-10-01T00:00:04" (by decide)

end Immortyx
